import Mathlib

/-!
Verification of the street-cleaning sign core of the NYCParking repository:
the description parser (src/backend/parser.py) and the next-occurrence
calculator (src/backend/scheduler.py), shallowly embedded over `List Char`
for strings (the ASCII fragment, which is the alphabet of the data source)
and `Nat`/`Rat` for Python integers and float hour counts.  `Option` models
Python `None` and the float("inf") sentinel of the calculator.
-/

namespace NYCParking

/-! ### Character classes and string primitives

Models of the Python string and `re` primitives the parser uses, on the
ASCII fragment: `str.upper`, substring containment, and the character
classes `\d`, `\s`, `\w` of the `re` module. -/

/-- ASCII uppercase conversion, the action of str.upper on the ASCII range. -/
def upChar (c : Char) : Char :=
  if 97 ≤ c.toNat ∧ c.toNat ≤ 122 then Char.ofNat (c.toNat - 32) else c

/-- str.upper over a whole string. -/
def str_upper (s : List Char) : List Char := s.map upChar

/-- Regex class backslash-d (ASCII digits 0-9). -/
def isDigitChar (c : Char) : Bool := 48 ≤ c.toNat && c.toNat ≤ 57

/-- Regex class backslash-s (ASCII whitespace: space, tab, LF, CR, VT, FF). -/
def isSpaceChar (c : Char) : Bool :=
  c.toNat == 32 || c.toNat == 9 || c.toNat == 10 || c.toNat == 13 || c.toNat == 11 || c.toNat == 12

/-- Regex class backslash-w (ASCII word characters: digits, letters, underscore). -/
def isWordChar (c : Char) : Bool :=
  isDigitChar c || (65 ≤ c.toNat && c.toNat ≤ 90) || (97 ≤ c.toNat && c.toNat ≤ 122) || c.toNat == 95

/-- Whether the second list is a leading segment of the first. -/
def startsWithList : List Char → List Char → Bool
  | _, [] => true
  | [], _ :: _ => false
  | c :: cs, d :: ds => c == d && startsWithList cs ds

/-- Python substring containment, needle in hay. -/
def containsList : List Char → List Char → Bool
  | [], needle => needle.isEmpty
  | c :: cs, needle => startsWithList (c :: cs) needle || containsList cs needle

/-! ### parser.py constants -/

/-- The fixed category marker checked by parse_sign_description. -/
def MARKER : List Char := ("SANITATION BROOM SYMBOL".data)

/-- DAYS_OF_WEEK dict of parser.py: weekday names to indices, in insertion
order Monday..Sunday. -/
def DAYS_OF_WEEK : List (List Char × Nat) :=
  [("MONDAY".data, 0), ("TUESDAY".data, 1), ("WEDNESDAY".data, 2), ("THURSDAY".data, 3),
   ("FRIDAY".data, 4), ("SATURDAY".data, 5), ("SUNDAY".data, 6)]

/-! ### Exception clauses -/

/-- The except_days set built by parse_sign_description: day numbers whose
literal "EXCEPT NAME" string occurs in the uppercased description.  The
source collects into a set iterating the dict in insertion order and later
sorts; the list produced here is that ascending enumeration. -/
def except_days (upper : List Char) : List Nat :=
  (DAYS_OF_WEEK.filter (fun p => containsList upper (("EXCEPT ".data) ++ p.1))).map (fun p => p.2)

/-- One attempted match of the regex EXCEPT backslash-s+ backslash-w+ at the
head of `s`; returns the matched length.  Both quantifiers are greedy and the
two classes are disjoint, so the Python backtracking engine is deterministic
here: all whitespace is consumed, then at least one word character must
follow and all are consumed. -/
def matchExceptLen (s : List Char) : Option Nat :=
  if startsWithList s ("EXCEPT".data) then
    let rest := s.drop 6
    let sp := rest.takeWhile isSpaceChar
    if sp.isEmpty then none
    else
      let rest2 := rest.drop sp.length
      let w := rest2.takeWhile isWordChar
      if w.isEmpty then none else some (6 + sp.length + w.length)
  else none

/-- Fuel-driven scan of re.sub(r"EXCEPT\s+\w+", "", s): leftmost
non-overlapping matches are deleted, scanning resumes after each match.
One character is consumed per step, so fuel = length always suffices; the
fuel-exhausted branch is unreachable from strip_except. -/
def stripExceptFuel : Nat → List Char → List Char
  | 0, s => s
  | _ + 1, [] => []
  | fuel + 1, c :: cs =>
    match matchExceptLen (c :: cs) with
    | some n => stripExceptFuel fuel (cs.drop (n - 1))
    | none => c :: stripExceptFuel fuel cs

/-- The `cleaned` string of parse_sign_description: the uppercased
description with every EXCEPT clause removed. -/
def strip_except (s : List Char) : List Char := stripExceptFuel s.length s

/-- Fuel-driven split of a string into its maximal runs of word characters.
One character is consumed per step, so fuel = length always suffices. -/
def wordRunsFuel : Nat → List Char → List (List Char)
  | 0, _ => []
  | _ + 1, [] => []
  | fuel + 1, c :: cs =>
    if isWordChar c then (c :: cs.takeWhile isWordChar) :: wordRunsFuel fuel (cs.dropWhile isWordChar)
    else wordRunsFuel fuel cs

/-- Maximal word-character runs of a string. -/
def word_runs (s : List Char) : List (List Char) := wordRunsFuel s.length s

/-- DAY_RE.findall mapped through DAYS_OF_WEEK: the day numbers of the
whole-word weekday-name occurrences, in text order.  A match of
DAY_RE = word-boundary (MONDAY|...|SUNDAY) word-boundary is exactly a
maximal word run equal to a day name, because day names consist of word
characters only. -/
def day_matches (s : List Char) : List Nat :=
  (word_runs s).filterMap (fun w => (DAYS_OF_WEEK.find? (fun p => p.1 == w)).map (fun p => p.2))

/-! ### TIME_RE

Model of the regex (\d{1,2}(?::\d{2})?(?:AM|PM))\s*-\s*(same), IGNORECASE.
At a fixed start position the backtracking search is deterministic: a
second digit (if present) forces the two-digit reading, a colon can only be
consumed by the optional minute group, and AM/PM can never match a colon or
digit, so each alternative of the engine is decided by one character of
lookahead.  search returns the leftmost position where a match exists. -/

/-- Match (?:AM|PM) case-insensitively at the head; returns matched chars
and remainder. -/
def readAmPm : List Char → Option (List Char × List Char)
  | a :: m :: rest =>
    if (a == 'A' || a == 'a' || a == 'P' || a == 'p') && (m == 'M' || m == 'm') then
      some ([a, m], rest)
    else none
  | _ => none

/-- After the hour digits: the optional (?::\d{2})? group then (?:AM|PM).
If a colon follows but is not followed by two digits and AM/PM, the token
fails: skipping the optional group would put AM/PM on the colon, which can
never match. -/
def finishTimeToken (digs rest : List Char) : Option (List Char × List Char) :=
  match rest with
  | ':' :: m1 :: m2 :: r3 =>
    if isDigitChar m1 && isDigitChar m2 then
      match readAmPm r3 with
      | some (ap, r4) => some (digs ++ ':' :: m1 :: m2 :: ap, r4)
      | none => none
    else none
  | _ =>
    match readAmPm rest with
    | some (ap, r4) => some (digs ++ ap, r4)
    | none => none

/-- One time token \d{1,2}(?::\d{2})?(?:AM|PM) at the head of `s`: greedy
two-digit hour when available (the one-digit alternative then necessarily
fails, since the next character is a digit). -/
def takeTimeToken (s : List Char) : Option (List Char × List Char) :=
  match s with
  | [] => none
  | c1 :: r1 =>
    if isDigitChar c1 then
      match r1 with
      | c2 :: r2 => if isDigitChar c2 then finishTimeToken [c1, c2] r2 else finishTimeToken [c1] r1
      | [] => finishTimeToken [c1] []
    else none

/-- The full TIME_RE pattern anchored at the head of `s`: token, \s*, the
hyphen, \s*, token.  Greedy \s* is deterministic because the hyphen and the
leading digit of a token are not whitespace. -/
def tryRangeAt (s : List Char) : Option (List Char × List Char) :=
  match takeTimeToken s with
  | none => none
  | some (g1, r1) =>
    match r1.dropWhile isSpaceChar with
    | '-' :: r3 =>
      match takeTimeToken (r3.dropWhile isSpaceChar) with
      | some (g2, _) => some (g1, g2)
      | none => none
    | _ => none

/-- TIME_RE.search: the two captured groups of the match at the leftmost
position where the pattern matches. -/
def time_re_search : List Char → Option (List Char × List Char)
  | [] => none
  | c :: cs =>
    match tryRangeAt (c :: cs) with
    | some g => some g
    | none => time_re_search cs

/-! ### parse_time (the _parse_time helper of parser.py) -/

/-- Python str.endswith. -/
def endsWithList (s pat : List Char) : Bool := startsWithList s.reverse pat.reverse

/-- Python str.replace(ab, "") for a two-character pattern: delete leftmost
non-overlapping occurrences of the pair a b, scanning left to right. -/
def removeSub2 (a b : Char) : List Char → List Char
  | [] => []
  | [c] => [c]
  | c :: d :: cs => if c = a ∧ d = b then removeSub2 a b cs else c :: removeSub2 a b (d :: cs)

/-- Python int() on a string of ASCII digits.  int() raises on any other
string; parse_time only ever applies this to digit substrings of a TIME_RE
match, so the junk values this total model returns elsewhere are never
produced. -/
def natOfDigits (l : List Char) : Nat :=
  l.foldl (fun acc c => acc * 10 + (c.toNat - 48)) 0

/-- First statement of _parse_time: t = t.upper().strip(). -/
def ptStrip (t0 : List Char) : List Char :=
  (((str_upper t0).dropWhile isSpaceChar).reverse.dropWhile isSpaceChar).reverse

/-- Third statement of _parse_time: t = t.replace("AM", "").replace("PM", ""). -/
def ptCore (t1 : List Char) : List Char := removeSub2 'P' 'M' (removeSub2 'A' 'M' t1)

/-- The split of _parse_time: h, m = t.split(":") when a colon is present
(TIME_RE matches contain at most one colon, so the two-part unpacking never
raises), else h, m = t, "0". -/
def ptParts (t2 : List Char) : List Char × List Char :=
  if t2.contains ':' then
    (t2.takeWhile (fun c => c != ':'), (t2.dropWhile (fun c => c != ':')).drop 1)
  else (t2, ['0'])

/-- Fourth statement: if is_pm and h != 12: h += 12. -/
def ptHour1 (is_pm : Bool) (h : Nat) : Nat := if is_pm && !(h == 12) then h + 12 else h

/-- Fifth statement: if not is_pm and h == 12: h = 0. -/
def ptHour2 (is_pm : Bool) (h : Nat) : Nat := if !is_pm && (h == 12) then 0 else h

/-- Model of _parse_time of parser.py: normalize one matched time token to a 24-hour
(hour, minute) pair.  is_pm is tested on the uppercased, stripped token
before the AM/PM substrings are removed, exactly as in the source. -/
def parse_time (t0 : List Char) : Nat × Nat :=
  (ptHour2 (endsWithList (ptStrip t0) (['P', 'M']))
    (ptHour1 (endsWithList (ptStrip t0) (['P', 'M']))
      (natOfDigits (ptParts (ptCore (ptStrip t0))).1)),
   natOfDigits (ptParts (ptCore (ptStrip t0))).2)


/-- A time token of the shape H[:MM](AM|PM) as matched by TIME_RE: hour
digits, an optional colon-minutes group, and a case-insensitive AM/PM
suffix. -/
def mkTimeToken (hds : List Char) (mins : Option (Char × Char)) (ap : Char × Char) : List Char :=
  hds ++ (match mins with | none => [] | some (m1, m2) => [':', m1, m2]) ++ [ap.1, ap.2]

/-! ### CleaningSchedule and parse_sign_description -/

/-- CleaningSchedule dataclass of parser.py: active days (0 = Monday ..
6 = Sunday) plus start and end time of the daily window. -/
structure CleaningSchedule where
  days : List Nat
  start_hour : Nat
  start_minute : Nat
  end_hour : Nat
  end_minute : Nat
  deriving DecidableEq, Repr

/-- parse_sign_description of parser.py.  `none` models every `return None`
of the source: missing marker, no day information, and no time window are
all collapsed onto the same value, as in the source.  The days field models
sorted(set(...) - except_days) as the ascending filter of 0..6, each branch
exactly as in the source: explicit days minus exceptions when a weekday name
occurs in the cleaned text, otherwise all days minus exceptions. -/
def parse_sign_description (desc : List Char) : Option CleaningSchedule :=
  if containsList (str_upper desc) MARKER then
    if (day_matches (strip_except (str_upper desc))).isEmpty &&
        (except_days (str_upper desc)).isEmpty then none
    else
      match time_re_search desc with
      | none => none
      | some (g1, g2) =>
        some ⟨(if !(day_matches (strip_except (str_upper desc))).isEmpty then
            (List.range 7).filter (fun d =>
              decide (d ∈ day_matches (strip_except (str_upper desc)) ∧
                d ∉ except_days (str_upper desc)))
          else
            (List.range 7).filter (fun d => decide (d ∉ except_days (str_upper desc)))),
          (parse_time g1).1, (parse_time g1).2, (parse_time g2).1, (parse_time g2).2⟩
  else none

/-! ### scheduler.py -/

/-- Loop body of hours_until_next_cleaning in scheduler.py: scan the given
day offsets in order (the source iterates range(8)); return the hour count
at the first qualifying offset, none when the loop exhausts (the source
returns float("inf") there).  Hour arithmetic is exact rational arithmetic
standing for the Python float divisions on the small integers involved. -/
def nextCleaningGo (days : List Nat) (current_minutes start_minutes end_minutes : Nat)
    (current_weekday : Nat) : List Nat → Option ℚ
  | [] => none
  | day_offset :: rest =>
    if (current_weekday + day_offset) % 7 ∈ days then
      if day_offset = 0 then
        if start_minutes ≤ current_minutes ∧ current_minutes < end_minutes then
          some 0
        else if current_minutes < start_minutes then
          some (((start_minutes : ℚ) - (current_minutes : ℚ)) / 60)
        else
          nextCleaningGo days current_minutes start_minutes end_minutes current_weekday rest
      else
        some ((((day_offset : ℚ) * 24 * 60) + (start_minutes : ℚ) - (current_minutes : ℚ)) / 60)
    else
      nextCleaningGo days current_minutes start_minutes end_minutes current_weekday rest

/-- hours_until_next_cleaning of scheduler.py.  The reference instant is
passed as its civil decomposition (weekday, minute of day), exactly the two
values the source extracts from `now` before the loop; seconds never enter
the computation.  `none` models the float("inf") "never" sentinel. -/
def hours_until_next_cleaning (schedule : CleaningSchedule)
    (current_weekday current_minutes : Nat) : Option ℚ :=
  nextCleaningGo schedule.days current_minutes
    (schedule.start_hour * 60 + schedule.start_minute)
    (schedule.end_hour * 60 + schedule.end_minute)
    current_weekday (List.range 8)

/-! ### Scheduler lemmas -/

/-- Unfolding equation for one loop step. -/
theorem nextCleaningGo_cons (days : List Nat) (cm sm em wd o : Nat) (rest : List Nat) :
    nextCleaningGo days cm sm em wd (o :: rest) =
      if (wd + o) % 7 ∈ days then
        if o = 0 then
          if sm ≤ cm ∧ cm < em then some 0
          else if cm < sm then some (((sm : ℚ) - (cm : ℚ)) / 60)
          else nextCleaningGo days cm sm em wd rest
        else some ((((o : ℚ) * 24 * 60) + (sm : ℚ) - (cm : ℚ)) / 60)
      else nextCleaningGo days cm sm em wd rest := rfl

/-- With no active days every membership test fails and the loop falls
through. -/
theorem nextCleaningGo_nil (cm sm em wd : Nat) (offs : List Nat) :
    nextCleaningGo [] cm sm em wd offs = none := by
  induction offs with
  | nil => rfl
  | cons o rest ih => simp [nextCleaningGo, ih]

/-- A nonzero offset hitting an active day forces the loop to return. -/
theorem nextCleaningGo_ne_none (days : List Nat) (cm sm em wd : Nat) (offs : List Nat)
    (o : Nat) (ho : o ∈ offs) (ho0 : o ≠ 0) (hhit : (wd + o) % 7 ∈ days) :
    nextCleaningGo days cm sm em wd offs ≠ none := by
  induction offs with
  | nil => simp at ho
  | cons o' rest ih =>
    rcases List.mem_cons.mp ho with rfl | hmem
    · simp only [nextCleaningGo, if_pos hhit, if_neg ho0]
      simp
    · by_cases h1 : (wd + o') % 7 ∈ days
      · by_cases h2 : o' = 0
        · subst h2
          simp only [nextCleaningGo, if_pos h1, if_pos rfl]
          by_cases h3 : sm ≤ cm ∧ cm < em
          · simp [h3]
          · by_cases h4 : cm < sm
            · simp [h3, h4]
            · simpa [h3, h4] using ih hmem
        · simp [nextCleaningGo, h1, h2]
      · simpa [nextCleaningGo, h1] using ih hmem

/-- Bounds for the hour value returned at a strictly positive offset.  The
offset-7 case needs that the same-day window has already started, which is
exactly the situation in which the loop ever reaches offset 7 on an active
day. -/
theorem offsetVal_bounds (o sm cm : Nat) (ho1 : 1 ≤ o) (ho7 : o ≤ 7)
    (hsm : sm ≤ 1439) (hcm : cm ≤ 1439) (h7 : o = 7 → sm < cm) :
    0 ≤ (((o : ℚ) * 24 * 60) + (sm : ℚ) - (cm : ℚ)) / 60 ∧
      (((o : ℚ) * 24 * 60) + (sm : ℚ) - (cm : ℚ)) / 60 < 168 := by
  have hsq : (sm : ℚ) ≤ 1439 := by exact_mod_cast hsm
  have hcq : (cm : ℚ) ≤ 1439 := by exact_mod_cast hcm
  have hc0 : (0 : ℚ) ≤ (cm : ℚ) := by positivity
  have hs0 : (0 : ℚ) ≤ (sm : ℚ) := by positivity
  have ho1q : (1 : ℚ) ≤ (o : ℚ) := by exact_mod_cast ho1
  have ho7q : (o : ℚ) ≤ 7 := by exact_mod_cast ho7
  constructor
  · apply div_nonneg _ (by norm_num)
    linarith
  · rw [div_lt_iff₀ (by norm_num : (0 : ℚ) < 60)]
    by_cases ho : o = 7
    · have hsc : (sm : ℚ) < (cm : ℚ) := by exact_mod_cast h7 ho
      have : (o : ℚ) = 7 := by exact_mod_cast ho
      rw [this]
      linarith
    · have ho6 : o ≤ 6 := by omega
      have ho6q : (o : ℚ) ≤ 6 := by exact_mod_cast ho6
      linarith

/-- Bounds for the hour value returned when the same-day window has not
started yet. -/
theorem earlyVal_bounds (sm cm : Nat) (h : cm < sm) (hsm : sm ≤ 1439) :
    0 ≤ ((sm : ℚ) - (cm : ℚ)) / 60 ∧ ((sm : ℚ) - (cm : ℚ)) / 60 < 168 := by
  have hsq : (sm : ℚ) ≤ 1439 := by exact_mod_cast hsm
  have hq : (cm : ℚ) < (sm : ℚ) := by exact_mod_cast h
  have hc0 : (0 : ℚ) ≤ (cm : ℚ) := by positivity
  constructor
  · apply div_nonneg _ (by norm_num)
    linarith
  · rw [div_lt_iff₀ (by norm_num : (0 : ℚ) < 60)]
    linarith

/-- Bounds for any value produced while scanning offsets 1..7.  An offset-7
hit implies, through h7, that the current minute is at or past the window
end, hence strictly past the window start. -/
theorem nextCleaningGo_tail_bounds (days : List Nat) (cm sm em wd : Nat) (offs : List Nat)
    (hoffs : ∀ o ∈ offs, 1 ≤ o ∧ o ≤ 7) (hsm : sm ≤ 1439) (hcm : cm ≤ 1439)
    (hlt : sm < em)
    (h7 : ∀ o ∈ offs, o = 7 → (wd + o) % 7 ∈ days → em ≤ cm) (q : ℚ)
    (h : nextCleaningGo days cm sm em wd offs = some q) : 0 ≤ q ∧ q < 168 := by
  induction offs with
  | nil => simp [nextCleaningGo] at h
  | cons o rest ih =>
    have ho := hoffs o (List.mem_cons_self o rest)
    by_cases h1 : (wd + o) % 7 ∈ days
    · have ho0 : o ≠ 0 := by omega
      rw [nextCleaningGo, if_pos h1, if_neg ho0] at h
      have hq := Option.some.inj h
      subst hq
      apply offsetVal_bounds o sm cm ho.1 ho.2 hsm hcm
      intro heq
      have := h7 o (List.mem_cons_self o rest) heq h1
      omega
    · rw [nextCleaningGo, if_neg h1] at h
      exact ih (fun o' ho' => hoffs o' (List.mem_cons_of_mem o ho'))
        (fun o' ho' => h7 o' (List.mem_cons_of_mem o ho')) h

/-! ### Claim theorems on the calculator -/

/-- C1.  If the reference weekday is active and the reference minute lies in
the half-open window, hours_until_next_cleaning returns exactly 0.0 hours
(ActiveNow): the loop hits at day offset 0 in its in-window branch. -/
theorem active_now_claim (s : CleaningSchedule) (wd cm : Nat) (hwd : wd < 7)
    (hmem : wd ∈ s.days)
    (hs : s.start_hour * 60 + s.start_minute ≤ cm)
    (he : cm < s.end_hour * 60 + s.end_minute) :
    hours_until_next_cleaning s wd cm = some 0 := by
  have h0 : (wd + 0) % 7 = wd := by omega
  rw [hours_until_next_cleaning, show List.range 8 = 0 :: [1, 2, 3, 4, 5, 6, 7] from rfl,
    nextCleaningGo_cons, h0, if_pos hmem, if_pos rfl, if_pos ⟨hs, he⟩]

/-- C2.  For every structurally valid schedule (weekday indices, in-range
window fields, start strictly before end) with at least one active day and
every reference instant, the calculator returns a finite hour count in
[0, 168): it never falls through to the float("inf") sentinel and never
yields a negative value. -/
theorem result_bounds_claim (s : CleaningSchedule) (wd cm : Nat)
    (hne : s.days ≠ []) (hvalid : ∀ d ∈ s.days, d < 7) (hwd : wd < 7) (hcm : cm ≤ 1439)
    (hsh : s.start_hour ≤ 23) (hsmin : s.start_minute ≤ 59)
    (heh : s.end_hour ≤ 23) (hemin : s.end_minute ≤ 59)
    (hlt : s.start_hour * 60 + s.start_minute < s.end_hour * 60 + s.end_minute) :
    ∃ q, hours_until_next_cleaning s wd cm = some q ∧ 0 ≤ q ∧ q < 168 := by
  set sm := s.start_hour * 60 + s.start_minute with hsm_def
  set em := s.end_hour * 60 + s.end_minute with hem_def
  have hsm1439 : sm ≤ 1439 := by omega
  obtain ⟨d, hd⟩ := List.exists_mem_of_ne_nil s.days hne
  have hd7 := hvalid d hd
  have hex : ∃ o, o ∈ List.range 8 ∧ o ≠ 0 ∧ (wd + o) % 7 = d := by
    by_cases hdw : d = wd
    · exact ⟨7, by simp, by omega, by omega⟩
    · refine ⟨(d + 7 - wd) % 7, by simp [List.mem_range]; omega, by omega, by omega⟩
  obtain ⟨o, hoin, ho0, hohit⟩ := hex
  have hnn : nextCleaningGo s.days cm sm em wd (List.range 8) ≠ none :=
    nextCleaningGo_ne_none s.days cm sm em wd (List.range 8) o hoin ho0 (hohit ▸ hd)
  obtain ⟨q, hq⟩ : ∃ q, nextCleaningGo s.days cm sm em wd (List.range 8) = some q := by
    cases h : nextCleaningGo s.days cm sm em wd (List.range 8) with
    | none => exact absurd h hnn
    | some q => exact ⟨q, rfl⟩
  refine ⟨q, hq, ?_⟩
  rw [show List.range 8 = 0 :: [1, 2, 3, 4, 5, 6, 7] from rfl, nextCleaningGo_cons] at hq
  have htail17 : ∀ o' ∈ [1, 2, 3, 4, 5, 6, 7], 1 ≤ o' ∧ o' ≤ 7 := by decide
  by_cases h1 : (wd + 0) % 7 ∈ s.days
  · rw [if_pos h1, if_pos rfl] at hq
    by_cases h2 : sm ≤ cm ∧ cm < em
    · rw [if_pos h2] at hq
      have := Option.some.inj hq
      subst this
      norm_num
    · rw [if_neg h2] at hq
      by_cases h3 : cm < sm
      · rw [if_pos h3] at hq
        have := Option.some.inj hq
        subst this
        exact earlyVal_bounds sm cm h3 hsm1439
      · rw [if_neg h3] at hq
        have hpast : em ≤ cm := by omega
        exact nextCleaningGo_tail_bounds s.days cm sm em wd _ htail17 hsm1439 hcm hlt
          (fun o' _ _ _ => hpast) q hq
  · rw [if_neg h1] at hq
    refine nextCleaningGo_tail_bounds s.days cm sm em wd _ htail17 hsm1439 hcm hlt ?_ q hq
    intro o' _ ho7 hhit
    exfalso
    apply h1
    have : (wd + o') % 7 = (wd + 0) % 7 := by omega
    exact this ▸ hhit

/-- C6.  The calculator returns the "never" sentinel exactly when the
schedule has no active days: an empty day list yields none for every
reference instant, and whenever a (valid) day exists some offset in 1..7
hits it, so the eight-offset loop cannot exhaust. -/
theorem never_iff_empty_claim (s : CleaningSchedule) (wd cm : Nat) (hwd : wd < 7)
    (hvalid : ∀ d ∈ s.days, d < 7) :
    hours_until_next_cleaning s wd cm = none ↔ s.days = [] := by
  constructor
  · intro h
    by_contra hne
    obtain ⟨d, hd⟩ := List.exists_mem_of_ne_nil s.days hne
    have hd7 := hvalid d hd
    have hex : ∃ o, o ∈ List.range 8 ∧ o ≠ 0 ∧ (wd + o) % 7 = d := by
      by_cases hdw : d = wd
      · exact ⟨7, by simp, by omega, by omega⟩
      · refine ⟨(d + 7 - wd) % 7, by simp [List.mem_range]; omega, by omega, by omega⟩
    obtain ⟨o, hoin, ho0, hohit⟩ := hex
    exact nextCleaningGo_ne_none s.days cm _ _ wd (List.range 8) o hoin ho0 (hohit ▸ hd) h
  · intro h
    rw [hours_until_next_cleaning, h]
    exact nextCleaningGo_nil _ _ _ _ _

/-- C3.  When the reference day is the only active day and the window is
already over for today, the inner branch neither returns 0 nor an early
value; offsets 1..6 miss the singleton day set, and the loop returns the
one-week wraparound value at offset 7. -/
theorem week_wraparound_claim (s : CleaningSchedule) (wd cm : Nat) (hwd : wd < 7)
    (hdays : s.days = [wd])
    (hlt : s.start_hour * 60 + s.start_minute < s.end_hour * 60 + s.end_minute)
    (hpast : s.end_hour * 60 + s.end_minute ≤ cm) :
    hours_until_next_cleaning s wd cm =
      some ((7 * 24 * 60 + ((s.start_hour * 60 + s.start_minute : Nat) : ℚ) - (cm : ℚ)) / 60) := by
  set sm := s.start_hour * 60 + s.start_minute with hsm_def
  set em := s.end_hour * 60 + s.end_minute with hem_def
  have m0 : (wd + 0) % 7 = wd := by omega
  have m7 : (wd + 7) % 7 = wd := by omega
  have m1 : (wd + 1) % 7 ≠ wd := by omega
  have m2 : (wd + 2) % 7 ≠ wd := by omega
  have m3 : (wd + 3) % 7 ≠ wd := by omega
  have m4 : (wd + 4) % 7 ≠ wd := by omega
  have m5 : (wd + 5) % 7 ≠ wd := by omega
  have m6 : (wd + 6) % 7 ≠ wd := by omega
  have hnot : ¬(sm ≤ cm ∧ cm < em) := by omega
  have hnlt : ¬(cm < sm) := by omega
  rw [hours_until_next_cleaning, show List.range 8 = [0, 1, 2, 3, 4, 5, 6, 7] from rfl, hdays]
  simp only [nextCleaningGo, List.mem_singleton, m0, m1, m2, m3, m4, m5, m6, m7,
    if_true, if_false, if_pos rfl, if_neg hnot, if_neg hnlt]
  norm_num [hsm_def]

/-! ### Parser lemmas -/

/-- Every number produced by day_matches comes from the DAYS_OF_WEEK table,
hence is a valid weekday index. -/
theorem day_matches_lt7 (s : List Char) : ∀ d ∈ day_matches s, d < 7 := by
  intro d hd
  rw [day_matches] at hd
  obtain ⟨w, _, hfw⟩ := List.mem_filterMap.mp hd
  obtain ⟨p, hp, hp2⟩ := Option.map_eq_some'.mp hfw
  have hmem := List.mem_of_find?_eq_some hp
  subst hp2
  simp [DAYS_OF_WEEK] at hmem
  rcases hmem with h | h | h | h | h | h | h <;> subst h <;> decide

/-- C7.  Any description whose uppercasing does not contain the category
marker is rejected immediately: the first conditional of
parse_sign_description returns None before any other processing. -/
theorem marker_gate_claim (desc : List Char)
    (h : containsList (str_upper desc) MARKER = false) :
    parse_sign_description desc = none := by
  rw [parse_sign_description, if_neg]
  simp [h]

/-- The days field of every parsed schedule is the ascending filter of 0..6
through the day-resolution predicate of the source. -/
theorem parse_some_days (desc : List Char) (sch : CleaningSchedule)
    (h : parse_sign_description desc = some sch) :
    sch.days =
      (if !(day_matches (strip_except (str_upper desc))).isEmpty then
        (List.range 7).filter (fun d =>
          decide (d ∈ day_matches (strip_except (str_upper desc)) ∧
            d ∉ except_days (str_upper desc)))
      else
        (List.range 7).filter (fun d => decide (d ∉ except_days (str_upper desc)))) := by
  rw [parse_sign_description] at h
  split at h
  · split at h
    · exact absurd h (by simp)
    · split at h
      · exact absurd h (by simp)
      · rw [← Option.some.inj h]
  · exact absurd h (by simp)

/-- C10.  The days field of every parsed schedule is strictly ascending,
duplicate-free, and contains only weekday indices 0..6: it is a filter of
List.range 7. -/
theorem parsed_days_sorted_claim (desc : List Char) (sch : CleaningSchedule)
    (h : parse_sign_description desc = some sch) :
    sch.days.Pairwise (· < ·) ∧ sch.days.Nodup ∧ ∀ d ∈ sch.days, d < 7 := by
  have hd := parse_some_days desc sch h
  have hpair : sch.days.Pairwise (· < ·) := by
    rw [hd]
    split
    · exact List.Pairwise.filter _ (List.pairwise_lt_range 7)
    · exact List.Pairwise.filter _ (List.pairwise_lt_range 7)
  refine ⟨hpair, hpair.imp Nat.ne_of_lt, ?_⟩
  intro d hdm
  rw [hd] at hdm
  split at hdm <;> exact List.mem_range.mp (List.mem_filter.mp hdm).1

/-- C4.  Day resolution of parse_sign_description, for descriptions passing
the marker gate: with explicit weekday names in the exception-stripped text,
the active days are exactly those names minus the exception days; with no
explicit names but a nonempty exception set, the active days are all seven
weekdays minus the exception days; and with both sets empty the parser
fails (returns None at the day step). -/
theorem day_resolution_claim (desc : List Char)
    (hm : containsList (str_upper desc) MARKER = true) :
    (day_matches (strip_except (str_upper desc)) ≠ [] →
      ∀ sch, parse_sign_description desc = some sch →
        ∀ d, d ∈ sch.days ↔
          (d ∈ day_matches (strip_except (str_upper desc)) ∧
            d ∉ except_days (str_upper desc)))
    ∧ (day_matches (strip_except (str_upper desc)) = [] →
        except_days (str_upper desc) ≠ [] →
        ∀ sch, parse_sign_description desc = some sch →
          ∀ d, d ∈ sch.days ↔ (d < 7 ∧ d ∉ except_days (str_upper desc)))
    ∧ (day_matches (strip_except (str_upper desc)) = [] →
        except_days (str_upper desc) = [] →
        parse_sign_description desc = none) := by
  refine ⟨?_, ?_, ?_⟩
  · intro hD sch hp d
    have hd := parse_some_days desc sch hp
    rw [if_pos (by simpa using hD)] at hd
    rw [hd]
    simp only [List.mem_filter, List.mem_range, decide_eq_true_eq]
    constructor
    · rintro ⟨_, h1, h2⟩
      exact ⟨h1, h2⟩
    · rintro ⟨h1, h2⟩
      exact ⟨day_matches_lt7 _ d h1, h1, h2⟩
  · intro hD _ sch hp d
    have hd := parse_some_days desc sch hp
    rw [if_neg (by simp [hD])] at hd
    rw [hd]
    simp only [List.mem_filter, List.mem_range, decide_eq_true_eq]
  · intro hD hE
    rw [parse_sign_description, if_pos hm, if_pos]
    simp [hD, hE]

-- sanity checks of the embedding against the spec scenarios and the
-- observable behavior of the source
example : parse_time ("8AM".data) = (8, 0) := by decide
example : parse_time ("12AM".data) = (0, 0) := by decide
example : parse_time ("12PM".data) = (12, 0) := by decide
example : parse_time ("1:30pm".data) = (13, 30) := by decide
example : parse_time ("11:05AM".data) = (11, 5) := by decide
example : parse_sign_description ("NO PARKING (SANITATION BROOM SYMBOL) MONDAY 8AM-11AM".data) =
    some ⟨[0], 8, 0, 11, 0⟩ := by decide
example : parse_sign_description
    ("SANITATION BROOM SYMBOL MONDAY TUESDAY WEDNESDAY THURSDAY FRIDAY EXCEPT TUESDAY 9AM-10AM".data) =
    some ⟨[0, 2, 3, 4], 9, 0, 10, 0⟩ := by decide
example : parse_sign_description ("SANITATION BROOM SYMBOL EXCEPT SUNDAY 8AM-6PM".data) =
    some ⟨[0, 1, 2, 3, 4, 5], 8, 0, 18, 0⟩ := by decide
example : parse_sign_description ("SANITATION BROOM SYMBOL 8AM-6PM".data) = none := by decide
example : time_re_search ("1234AM-5PM".data) = some (("34AM".data), ("5PM".data)) := by decide
example : time_re_search ("5:5AM-6AM x 2AM-3AM".data) = some (("5AM".data), ("6AM".data)) := by decide
example : strip_except ("EXCEPTEXCEPT MONDAY".data) = ("EXCEPT".data) := by decide
example : day_matches ("MONDAYTUESDAY WED THURSDAY".data) = [3] := by decide
example : except_days ("A XEXCEPT  MONDAYS Y EXCEPT FRIDAY".data) = [4] := by decide


/-! ### Character and token lemmas for the parse_time claims -/

theorem digit_bounds (c : Char) (h : isDigitChar c = true) : 48 ≤ c.toNat ∧ c.toNat ≤ 57 := by
  simpa [isDigitChar] using h

theorem upChar_digit (c : Char) (h : isDigitChar c = true) : upChar c = c := by
  have hb := digit_bounds c h
  rw [upChar, if_neg]
  omega

theorem digit_not_space (c : Char) (h : isDigitChar c = true) : isSpaceChar c = false := by
  have hb := digit_bounds c h
  simp [isSpaceChar]
  omega

theorem digit_ne (c d : Char) (h : isDigitChar c = true) (hd : isDigitChar d = false) : c ≠ d := by
  intro heq
  subst heq
  rw [h] at hd
  cases hd

theorem str_upper_digits (l : List Char) (h : ∀ c ∈ l, isDigitChar c = true) :
    str_upper l = l := by
  rw [str_upper]
  rw [List.map_congr_left (fun c hc => upChar_digit c (h c hc))]
  exact l.map_id

theorem dropWhile_eq_self_of (p : Char → Bool) (l : List Char) (h : ∀ c ∈ l, p c = false) :
    l.dropWhile p = l := by
  cases l with
  | nil => rfl
  | cons c cs =>
    rw [List.dropWhile_cons, if_neg]
    simp [h c (List.mem_cons_self c cs)]

theorem strip_id (l : List Char) (h : ∀ c ∈ l, isSpaceChar c = false) :
    ((l.dropWhile isSpaceChar).reverse.dropWhile isSpaceChar).reverse = l := by
  rw [dropWhile_eq_self_of _ _ h,
    dropWhile_eq_self_of _ _ (fun c hc => h c (List.mem_reverse.mp hc)),
    List.reverse_reverse]

theorem endsWith_pair (l : List Char) (x y : Char) :
    endsWithList (l ++ [x, y]) (['P', 'M']) = (y == 'M' && x == 'P') := by
  simp [endsWithList, startsWithList, List.reverse_append]

theorem removeSub2_append (a b : Char) (l r : List Char) (h : ∀ c ∈ l, c ≠ a) :
    removeSub2 a b (l ++ r) = l ++ removeSub2 a b r := by
  induction l with
  | nil => simp
  | cons c cs ih =>
    have hc : c ≠ a := h c (List.mem_cons_self c cs)
    have hcs : ∀ x ∈ cs, x ≠ a := fun x hx => h x (List.mem_cons_of_mem c hx)
    rw [List.cons_append]
    cases hd : cs ++ r with
    | nil =>
      obtain ⟨h1, h2⟩ := List.append_eq_nil.mp hd
      subst h1
      subst h2
      simp [removeSub2]
    | cons d ds =>
      rw [removeSub2, if_neg (by tauto), ← hd, ih hcs]
      rfl

theorem removeSub2_id (a b : Char) (l : List Char) (h : ∀ c ∈ l, c ≠ a) :
    removeSub2 a b l = l := by
  have := removeSub2_append a b l [] h
  simpa [removeSub2] using this

theorem takeWhile_colon (l r : List Char) (h : ∀ c ∈ l, c ≠ ':') :
    (l ++ ':' :: r).takeWhile (fun c => c != ':') = l := by
  induction l with
  | nil => simp [List.takeWhile_cons]
  | cons c cs ih =>
    rw [List.cons_append, List.takeWhile_cons, if_pos]
    · rw [ih (fun x hx => h x (List.mem_cons_of_mem c hx))]
    · simp [h c (List.mem_cons_self c cs)]

theorem dropWhile_colon (l r : List Char) (h : ∀ c ∈ l, c ≠ ':') :
    (l ++ ':' :: r).dropWhile (fun c => c != ':') = ':' :: r := by
  induction l with
  | nil => simp [List.dropWhile_cons]
  | cons c cs ih =>
    rw [List.cons_append, List.dropWhile_cons, if_pos]
    · exact ih (fun x hx => h x (List.mem_cons_of_mem c hx))
    · simp [h c (List.mem_cons_self c cs)]

theorem contains_colon_append (l r : List Char) : (l ++ ':' :: r).contains ':' = true := by
  simp

theorem contains_colon_none (l : List Char) (h : ∀ c ∈ l, c ≠ ':') :
    l.contains ':' = false := by
  simp only [List.elem_eq_mem, decide_eq_false_iff_not]
  intro hc
  exact h ':' hc rfl

theorem parse_time_canon (t0 hds mid : List Char) (A : Char)
    (hdig : ∀ c ∈ hds, isDigitChar c = true)
    (hmid : mid = [] ∨ ∃ m1 m2, mid = [':', m1, m2] ∧ isDigitChar m1 = true ∧ isDigitChar m2 = true)
    (hA : A = 'A' ∨ A = 'P')
    (hup : str_upper t0 = (hds ++ mid) ++ [A, 'M']) :
    parse_time t0 =
      ((if A = 'P' then (if natOfDigits hds = 12 then 12 else natOfDigits hds + 12)
        else (if natOfDigits hds = 12 then 0 else natOfDigits hds)),
       natOfDigits (mid.drop 1)) := by
  have hmidA : ∀ c ∈ mid, c ≠ 'A' ∧ c ≠ 'P' ∧ c ≠ ':' → True := fun _ _ _ => trivial
  have hns : ∀ c ∈ (hds ++ mid) ++ [A, 'M'], isSpaceChar c = false := by
    intro c hc
    rcases List.mem_append.mp hc with hc | hc
    · rcases List.mem_append.mp hc with hc | hc
      · exact digit_not_space c (hdig c hc)
      · rcases hmid with rfl | ⟨m1, m2, rfl, hm1, hm2⟩
        · simp at hc
        · simp only [List.mem_cons, List.not_mem_nil, or_false] at hc
          rcases hc with rfl | rfl | rfl
          · decide
          · exact digit_not_space _ hm1
          · exact digit_not_space _ hm2
    · simp only [List.mem_cons, List.not_mem_nil, or_false] at hc
      rcases hA with rfl | rfl <;> rcases hc with rfl | rfl <;> decide
  have hpre_ne_A : ∀ c ∈ hds ++ mid, c ≠ 'A' := by
    intro c hc
    rcases List.mem_append.mp hc with hc | hc
    · exact digit_ne c 'A' (hdig c hc) (by decide)
    · rcases hmid with rfl | ⟨m1, m2, rfl, hm1, hm2⟩
      · simp at hc
      · simp only [List.mem_cons, List.not_mem_nil, or_false] at hc
        rcases hc with rfl | rfl | rfl
        · decide
        · exact digit_ne _ 'A' hm1 (by decide)
        · exact digit_ne _ 'A' hm2 (by decide)
  have hpre_ne_P : ∀ c ∈ hds ++ mid, c ≠ 'P' := by
    intro c hc
    rcases List.mem_append.mp hc with hc | hc
    · exact digit_ne c 'P' (hdig c hc) (by decide)
    · rcases hmid with rfl | ⟨m1, m2, rfl, hm1, hm2⟩
      · simp at hc
      · simp only [List.mem_cons, List.not_mem_nil, or_false] at hc
        rcases hc with rfl | rfl | rfl
        · decide
        · exact digit_ne _ 'P' hm1 (by decide)
        · exact digit_ne _ 'P' hm2 (by decide)
  have ht1 : ptStrip t0 = (hds ++ mid) ++ [A, 'M'] := by
    rw [ptStrip, hup]
    exact strip_id _ hns
  have hpm : endsWithList (ptStrip t0) (['P', 'M']) = (A == 'P') := by
    rw [ht1, endsWith_pair]
    simp
  have ht2 : ptCore (ptStrip t0) = hds ++ mid := by
    rw [ptCore, ht1]
    rcases hA with rfl | rfl
    · rw [removeSub2_append 'A' 'M' (hds ++ mid) (['A', 'M']) hpre_ne_A,
        show removeSub2 'A' 'M' (['A', 'M']) = [] from (by decide), List.append_nil]
      exact removeSub2_id 'P' 'M' (hds ++ mid) hpre_ne_P
    · rw [removeSub2_id 'A' 'M' ((hds ++ mid) ++ ['P', 'M']) ?_]
      · rw [removeSub2_append 'P' 'M' (hds ++ mid) (['P', 'M']) hpre_ne_P,
          show removeSub2 'P' 'M' (['P', 'M']) = [] from (by decide), List.append_nil]
      · intro c hc
        rcases List.mem_append.mp hc with hc | hc
        · exact hpre_ne_A c hc
        · simp only [List.mem_cons, List.not_mem_nil, or_false] at hc
          rcases hc with rfl | rfl <;> decide
  simp only [parse_time, hpm, ht2]
  rcases hmid with rfl | ⟨m1, m2, rfl, hm1, hm2⟩
  · have hparts : ptParts (hds ++ []) = (hds, ['0']) := by
      rw [List.append_nil, ptParts, if_neg]
      rw [contains_colon_none hds (fun c hc => digit_ne c ':' (hdig c hc) (by decide))]
      simp
    rw [hparts]
    have e1 : natOfDigits (['0']) = 0 := rfl
    have e2 : natOfDigits (List.drop 1 ([] : List Char)) = 0 := rfl
    have e3 : natOfDigits ([] : List Char) = 0 := rfl
    rcases hA with rfl | rfl
    · by_cases h12 : natOfDigits hds = 12 <;>
        simp [ptHour1, ptHour2, h12, e1, e2, e3]
    · by_cases h12 : natOfDigits hds = 12 <;>
        simp [ptHour1, ptHour2, h12, e1, e2, e3]
  · have hne : ∀ c ∈ hds, c ≠ ':' := fun c hc => digit_ne c ':' (hdig c hc) (by decide)
    have hparts : ptParts (hds ++ [':', m1, m2]) = (hds, [m1, m2]) := by
      rw [ptParts, if_pos]
      · rw [show (hds ++ [':', m1, m2]) = hds ++ ':' :: [m1, m2] from rfl,
          takeWhile_colon hds ([m1, m2]) hne, dropWhile_colon hds ([m1, m2]) hne]
        rfl
      · rw [show (hds ++ [':', m1, m2]) = hds ++ ':' :: [m1, m2] from rfl,
          contains_colon_append]
    rw [hparts]
    rcases hA with rfl | rfl
    · by_cases h12 : natOfDigits hds = 12 <;>
        simp [ptHour1, ptHour2, h12]
    · by_cases h12 : natOfDigits hds = 12 <;>
        simp [ptHour1, ptHour2, h12]

theorem parse_time_mkTimeToken (hds : List Char) (mins : Option (Char × Char)) (a m : Char)
    (hdig : ∀ c ∈ hds, isDigitChar c = true)
    (hmins : ∀ p ∈ mins, isDigitChar p.1 = true ∧ isDigitChar p.2 = true)
    (ha : a = 'A' ∨ a = 'a' ∨ a = 'P' ∨ a = 'p') (hm : m = 'M' ∨ m = 'm') :
    parse_time (mkTimeToken hds mins (a, m)) =
      ((if a = 'P' ∨ a = 'p' then
          (if natOfDigits hds = 12 then 12 else natOfDigits hds + 12)
        else (if natOfDigits hds = 12 then 0 else natOfDigits hds)),
       (match mins with
        | none => 0
        | some (m1, m2) => natOfDigits ([m1, m2]))) := by
  rcases mins with _ | ⟨m1, m2⟩
  · have hup : str_upper (mkTimeToken hds none (a, m)) = (hds ++ []) ++ [upChar a, 'M'] := by
      rw [mkTimeToken]
      show str_upper (hds ++ [] ++ [a, m]) = (hds ++ []) ++ [upChar a, 'M']
      rw [List.append_nil, str_upper, List.map_append,
        show List.map upChar hds = hds from str_upper_digits hds hdig]
      rcases hm with rfl | rfl <;> rfl
    have hres := parse_time_canon (mkTimeToken hds none (a, m)) hds [] (upChar a) hdig
      (Or.inl rfl) ?_ hup
    · rw [hres]
      have e3 : natOfDigits (List.drop 1 ([] : List Char)) = 0 := rfl
      have e4 : natOfDigits ([] : List Char) = 0 := rfl
      rcases ha with rfl | rfl | rfl | rfl <;>
        simp [show upChar 'A' = 'A' from rfl, show upChar 'a' = 'A' from rfl,
          show upChar 'P' = 'P' from rfl, show upChar 'p' = 'P' from rfl, e3, e4]
    · rcases ha with rfl | rfl | rfl | rfl
      · exact Or.inl rfl
      · exact Or.inl rfl
      · exact Or.inr rfl
      · exact Or.inr rfl
  · have hm12 := hmins (m1, m2) rfl
    have hup : str_upper (mkTimeToken hds (some (m1, m2)) (a, m)) =
        (hds ++ [':', m1, m2]) ++ [upChar a, 'M'] := by
      rw [mkTimeToken]
      show str_upper (hds ++ [':', m1, m2] ++ [a, m]) = (hds ++ [':', m1, m2]) ++ [upChar a, 'M']
      rw [str_upper, List.map_append, List.map_append,
        show List.map upChar hds = hds from str_upper_digits hds hdig]
      congr 1
      · congr 1
        show [upChar ':', upChar m1, upChar m2] = [':', m1, m2]
        rw [upChar_digit m1 hm12.1, upChar_digit m2 hm12.2]
        rfl
      · rcases hm with rfl | rfl <;> rfl
    have hres := parse_time_canon (mkTimeToken hds (some (m1, m2)) (a, m)) hds
      ([':', m1, m2]) (upChar a) hdig (Or.inr ⟨m1, m2, rfl, hm12.1, hm12.2⟩) ?_ hup
    · rw [hres]
      rcases ha with rfl | rfl | rfl | rfl <;>
        simp [show upChar 'A' = 'A' from rfl, show upChar 'a' = 'A' from rfl,
          show upChar 'P' = 'P' from rfl, show upChar 'p' = 'P' from rfl]
    · rcases ha with rfl | rfl | rfl | rfl
      · exact Or.inl rfl
      · exact Or.inl rfl
      · exact Or.inr rfl
      · exact Or.inr rfl

/-- C5.  Time-token normalization: for every token of the form
H[:MM](AM|PM) built from digit characters and a case-insensitive AM/PM
suffix, _parse_time returns minute MM (0 when the minutes group is absent)
and an hour given by the 12-hour rule: 12 AM maps to 0, 12 PM stays 12, any
other PM hour has 12 added, and AM hours (in particular 1-11) pass through
unchanged. -/
theorem parse_time_token_claim (hds : List Char) (mins : Option (Char × Char)) (a m : Char)
    (hdig : ∀ c ∈ hds, isDigitChar c = true)
    (hlen : 1 ≤ hds.length ∧ hds.length ≤ 2)
    (hmins : ∀ p ∈ mins, isDigitChar p.1 = true ∧ isDigitChar p.2 = true)
    (ha : a = 'A' ∨ a = 'a' ∨ a = 'P' ∨ a = 'p') (hm : m = 'M' ∨ m = 'm') :
    parse_time (mkTimeToken hds mins (a, m)) =
      ((if a = 'P' ∨ a = 'p' then
          (if natOfDigits hds = 12 then 12 else natOfDigits hds + 12)
        else (if natOfDigits hds = 12 then 0 else natOfDigits hds)),
       (match mins with
        | none => 0
        | some (m1, m2) => natOfDigits ([m1, m2]))) :=
  parse_time_mkTimeToken hds mins a m hdig hmins ha hm

/-- C8 (amended).  parse applies no range validation, but for standard
12-hour tokens (hour value 1-12, minutes value at most 59) the normalized
fields do satisfy the data-model bounds: hour at most 23 and minute at most
59. -/
theorem parse_time_inrange_claim (hds : List Char) (mins : Option (Char × Char)) (a m : Char)
    (hdig : ∀ c ∈ hds, isDigitChar c = true)
    (hmins : ∀ p ∈ mins, isDigitChar p.1 = true ∧ isDigitChar p.2 = true)
    (ha : a = 'A' ∨ a = 'a' ∨ a = 'P' ∨ a = 'p') (hm : m = 'M' ∨ m = 'm')
    (hh1 : 1 ≤ natOfDigits hds) (hh12 : natOfDigits hds ≤ 12)
    (hmv : (match mins with
            | none => 0
            | some (m1, m2) => natOfDigits ([m1, m2])) ≤ 59) :
    (parse_time (mkTimeToken hds mins (a, m))).1 ≤ 23 ∧
      (parse_time (mkTimeToken hds mins (a, m))).2 ≤ 59 := by
  rcases mins with _ | ⟨m1, m2⟩ <;>
    rw [parse_time_mkTimeToken hds _ a m hdig hmins ha hm] <;>
    constructor <;>
    first
      | (by_cases hpm : a = 'P' ∨ a = 'p' <;> by_cases h12 : natOfDigits hds = 12 <;>
          simp [hpm, h12] <;> omega)
      | simpa using hmv

theorem readAmPm_no_colon (s ap r : List Char) (h : readAmPm s = some (ap, r)) :
    List.count ':' ap = 0 := by
  rw [readAmPm.eq_def] at h
  split at h
  · rename_i a m rest
    split at h
    · rename_i hcond
      obtain ⟨h1, _⟩ := Prod.mk.injEq .. ▸ Option.some.inj h
      subst h1
      simp only [Bool.and_eq_true, Bool.or_eq_true, beq_iff_eq] at hcond
      obtain ⟨ha, hm⟩ := hcond
      rcases ha with ((rfl | rfl) | rfl) | rfl <;> rcases hm with rfl | rfl <;> decide
    · exact absurd h (by simp)
  · exact absurd h (by simp)

theorem digit_count_colon (c : Char) (h : isDigitChar c = true) : (c == ':') = false := by
  cases hbe : c == ':' with
  | false => rfl
  | true =>
    have : c = ':' := beq_iff_eq.mp hbe
    subst this
    exact absurd h (by decide)

theorem finishTimeToken_colons (digs rest g r : List Char) (hd : List.count ':' digs = 0)
    (h : finishTimeToken digs rest = some (g, r)) : List.count ':' g ≤ 1 := by
  rw [finishTimeToken.eq_def] at h
  split at h
  · rename_i m1 m2 r3
    split at h
    · rename_i hdig
      split at h
      · rename_i ap r4 hap
        obtain ⟨h1, _⟩ := Prod.mk.injEq .. ▸ Option.some.inj h
        subst h1
        have hap0 := readAmPm_no_colon _ _ _ hap
        simp only [Bool.and_eq_true] at hdig
        simp [List.count_append, List.count_cons, hd, hap0,
          digit_count_colon _ hdig.1, digit_count_colon _ hdig.2]
      · exact absurd h (by simp)
    · exact absurd h (by simp)
  · split at h
    · rename_i ap r4 hap
      obtain ⟨h1, _⟩ := Prod.mk.injEq .. ▸ Option.some.inj h
      subst h1
      have hap0 := readAmPm_no_colon _ _ _ hap
      simp [List.count_append, hd, hap0]
    · exact absurd h (by simp)

theorem takeTimeToken_colons (s g r : List Char) (h : takeTimeToken s = some (g, r)) :
    List.count ':' g ≤ 1 := by
  rw [takeTimeToken.eq_def] at h
  split at h
  · exact absurd h (by simp)
  · rename_i c1 r1
    split at h
    · rename_i hc1
      split at h
      · rename_i c2 r2
        split at h
        · rename_i hc2
          refine finishTimeToken_colons _ _ _ _ ?_ h
          simp [List.count_cons, digit_count_colon _ hc1, digit_count_colon _ hc2]
        · refine finishTimeToken_colons _ _ _ _ ?_ h
          simp [List.count_cons, digit_count_colon _ hc1]
      · refine finishTimeToken_colons _ _ _ _ ?_ h
        simp [List.count_cons, digit_count_colon _ hc1]
    · exact absurd h (by simp)

theorem tryRangeAt_colons (s g1 g2 : List Char) (h : tryRangeAt s = some (g1, g2)) :
    List.count ':' g1 ≤ 1 ∧ List.count ':' g2 ≤ 1 := by
  rw [tryRangeAt.eq_def] at h
  split at h
  · exact absurd h (by simp)
  · rename_i g1' r1 htk
    split at h
    · rename_i r3
      split at h
      · rename_i g2' r4 htk2
        obtain ⟨e1, e2⟩ := Prod.mk.injEq .. ▸ Option.some.inj h
        subst e1
        subst e2
        exact ⟨takeTimeToken_colons _ _ _ htk, takeTimeToken_colons _ _ _ htk2⟩
      · exact absurd h (by simp)
    · exact absurd h (by simp)

/-- C9 (amended).  The two groups of any TIME_RE match contain at most one
colon each, so the two-part unpacking of _parse_time t.split(":") never
fails: parse_sign_description never raises.  The three failure reasons,
however, are all returned as the same None (see the counterexample). -/
theorem time_tokens_one_colon_claim (s g1 g2 : List Char)
    (h : time_re_search s = some (g1, g2)) :
    List.count ':' g1 ≤ 1 ∧ List.count ':' g2 ≤ 1 := by
  induction s with
  | nil => simp [time_re_search] at h
  | cons c cs ih =>
    rw [show time_re_search (c :: cs) =
        (match tryRangeAt (c :: cs) with
         | some g => some g
         | none => time_re_search cs) from rfl] at h
    split at h
    · rename_i g hg
      obtain rfl := Option.some.inj h
      exact tryRangeAt_colons _ _ _ hg
    · exact ih h

/-! ### Counterexamples -/

/-- C8 counterexample.  The description below carries the marker, Monday,
and first time range 99:99PM-8AM.  parse_sign_description accepts it and
returns a schedule with start hour 111 (beyond 23), start minute 99 (beyond
59), and window start not earlier than window end: no construction-time
validation of the window invariants takes place. -/
theorem window_invariant_counterexample :
    parse_sign_description (("SANITATION BROOM SYMBOL MONDAY 99:99PM-8AM").data) =
      some ⟨[0], 111, 99, 8, 0⟩ ∧
    ¬(111 ≤ 23) ∧ ¬(99 ≤ 59) ∧ ¬(111 * 60 + 99 < 8 * 60 + 0) :=
  ⟨by decide, by decide, by decide, by decide⟩

/-- C9 counterexample.  Three inputs that fail for the three different
reasons (no marker, no day information, no time window) all produce the
very same outcome None: the failure reasons are not mutually
distinguishable in the return value. -/
theorem failure_collapse_counterexample :
    parse_sign_description ((".").data) = none ∧
    parse_sign_description (("SANITATION BROOM SYMBOL").data) = none ∧
    parse_sign_description (("SANITATION BROOM SYMBOL MONDAY").data) = none ∧
    parse_sign_description ((".").data) =
      parse_sign_description (("SANITATION BROOM SYMBOL").data) :=
  ⟨by decide, by decide, by decide, by decide⟩

/-! ### Witnesses -/

/-- Witness for C1 at schedule Monday 8:00-11:00 and reference Monday
9:30. -/
theorem active_now_witness :
    (0 : Nat) < 7 ∧ 0 ∈ [0] ∧ 8 * 60 + 0 ≤ 570 ∧ 570 < 11 * 60 + 0 ∧
      hours_until_next_cleaning ⟨[0], 8, 0, 11, 0⟩ 0 570 = some 0 :=
  ⟨by decide, by decide, by decide, by decide,
    active_now_claim ⟨[0], 8, 0, 11, 0⟩ 0 570 (by decide) (by decide) (by decide) (by decide)⟩

/-- Witness for C2 at schedule Wednesday 8:00-11:00 and reference Monday
01:40. -/
theorem result_bounds_witness :
    (⟨[2], 8, 0, 11, 0⟩ : CleaningSchedule).days ≠ [] ∧
    (∀ d ∈ (⟨[2], 8, 0, 11, 0⟩ : CleaningSchedule).days, d < 7) ∧
    (∃ q, hours_until_next_cleaning ⟨[2], 8, 0, 11, 0⟩ 0 100 = some q ∧ 0 ≤ q ∧ q < 168) :=
  ⟨by decide, by decide,
    result_bounds_claim ⟨[2], 8, 0, 11, 0⟩ 0 100 (by decide) (by decide) (by decide)
      (by decide) (by decide) (by decide) (by decide) (by decide) (by decide)⟩

/-- Witness for C3, Scenario C: schedule Monday 8:00-11:00, reference
Monday 12:00, result exactly 164.0 hours. -/
theorem week_wraparound_witness :
    (0 : Nat) < 7 ∧ 8 * 60 + 0 < 11 * 60 + 0 ∧ 11 * 60 + 0 ≤ 720 ∧
      hours_until_next_cleaning ⟨[0], 8, 0, 11, 0⟩ 0 720 = some 164 := by
  refine ⟨by decide, by decide, by decide, ?_⟩
  rw [week_wraparound_claim ⟨[0], 8, 0, 11, 0⟩ 0 720 (by decide) rfl (by decide) (by decide)]
  norm_num

/-- Witness for C4 at Scenario E, "EXCEPT SUNDAY 8AM-6PM" with the
marker. -/
theorem day_resolution_witness :
    containsList (str_upper (("SANITATION BROOM SYMBOL EXCEPT SUNDAY 8AM-6PM").data))
        MARKER = true ∧
    ((day_matches (strip_except (str_upper
        (("SANITATION BROOM SYMBOL EXCEPT SUNDAY 8AM-6PM").data))) ≠ [] →
      ∀ sch, parse_sign_description
          (("SANITATION BROOM SYMBOL EXCEPT SUNDAY 8AM-6PM").data) = some sch →
        ∀ d, d ∈ sch.days ↔
          (d ∈ day_matches (strip_except (str_upper
              (("SANITATION BROOM SYMBOL EXCEPT SUNDAY 8AM-6PM").data))) ∧
            d ∉ except_days (str_upper
              (("SANITATION BROOM SYMBOL EXCEPT SUNDAY 8AM-6PM").data))))
    ∧ (day_matches (strip_except (str_upper
          (("SANITATION BROOM SYMBOL EXCEPT SUNDAY 8AM-6PM").data))) = [] →
        except_days (str_upper
          (("SANITATION BROOM SYMBOL EXCEPT SUNDAY 8AM-6PM").data)) ≠ [] →
        ∀ sch, parse_sign_description
            (("SANITATION BROOM SYMBOL EXCEPT SUNDAY 8AM-6PM").data) = some sch →
          ∀ d, d ∈ sch.days ↔ (d < 7 ∧ d ∉ except_days (str_upper
            (("SANITATION BROOM SYMBOL EXCEPT SUNDAY 8AM-6PM").data))))
    ∧ (day_matches (strip_except (str_upper
          (("SANITATION BROOM SYMBOL EXCEPT SUNDAY 8AM-6PM").data))) = [] →
        except_days (str_upper
          (("SANITATION BROOM SYMBOL EXCEPT SUNDAY 8AM-6PM").data)) = [] →
        parse_sign_description
          (("SANITATION BROOM SYMBOL EXCEPT SUNDAY 8AM-6PM").data) = none)) :=
  ⟨by decide, day_resolution_claim (("SANITATION BROOM SYMBOL EXCEPT SUNDAY 8AM-6PM").data)
    (by decide)⟩

/-- Witness for C5 at the token 12:30pm. -/
theorem parse_time_token_witness :
    (∀ c ∈ (['1', '2'] : List Char), isDigitChar c = true) ∧
    parse_time (mkTimeToken (['1', '2']) (some ('3', '0')) ('p', 'm')) = (12, 30) := by
  refine ⟨by decide, ?_⟩
  rw [parse_time_token_claim (['1', '2']) (some ('3', '0')) 'p' 'm' (by decide) (by decide)
    (by decide) (by decide) (by decide)]
  decide

/-- Witness for C6 at an empty-day schedule and reference Monday 01:40. -/
theorem never_iff_empty_witness :
    (0 : Nat) < 7 ∧
    (hours_until_next_cleaning ⟨[], 8, 0, 11, 0⟩ 0 100 = none ↔
      (⟨[], 8, 0, 11, 0⟩ : CleaningSchedule).days = []) :=
  ⟨by decide, never_iff_empty_claim ⟨[], 8, 0, 11, 0⟩ 0 100 (by decide) (by decide)⟩

/-- Witness for C7 at a description without the marker. -/
theorem marker_gate_witness :
    containsList (str_upper (("NO STANDING ANYTIME").data)) MARKER = false ∧
    parse_sign_description (("NO STANDING ANYTIME").data) = none :=
  ⟨by decide, marker_gate_claim (("NO STANDING ANYTIME").data) (by decide)⟩

/-- Witness for the amended C8 at the token 9PM: hour 21, minute 0. -/
theorem parse_time_inrange_witness :
    1 ≤ natOfDigits (['9']) ∧ natOfDigits (['9']) ≤ 12 ∧
    (parse_time (mkTimeToken (['9']) none ('P', 'M'))).1 ≤ 23 ∧
    (parse_time (mkTimeToken (['9']) none ('P', 'M'))).2 ≤ 59 := by
  refine ⟨by decide, by decide, ?_, ?_⟩
  · exact (parse_time_inrange_claim (['9']) none 'P' 'M' (by decide) (by decide) (by decide)
      (by decide) (by decide) (by decide) (by decide)).1
  · exact (parse_time_inrange_claim (['9']) none 'P' 'M' (by decide) (by decide) (by decide)
      (by decide) (by decide) (by decide) (by decide)).2

/-- Witness for the amended C9 at the range 8AM-9AM. -/
theorem time_tokens_one_colon_witness :
    time_re_search (("8AM-9AM").data) = some ((("8AM").data), (("9AM").data)) ∧
    List.count ':' (("8AM").data) ≤ 1 ∧ List.count ':' (("9AM").data) ≤ 1 := by
  refine ⟨by decide, ?_⟩
  exact time_tokens_one_colon_claim (("8AM-9AM").data) (("8AM").data) (("9AM").data) (by decide)

/-- Witness for C10 at Scenario D. -/
theorem parsed_days_sorted_witness :
    parse_sign_description
        (("SANITATION BROOM SYMBOL MONDAY TUESDAY WEDNESDAY THURSDAY FRIDAY EXCEPT TUESDAY 9AM-10AM").data) =
      some ⟨[0, 2, 3, 4], 9, 0, 10, 0⟩ ∧
    ((⟨[0, 2, 3, 4], 9, 0, 10, 0⟩ : CleaningSchedule).days.Pairwise (· < ·) ∧
      (⟨[0, 2, 3, 4], 9, 0, 10, 0⟩ : CleaningSchedule).days.Nodup ∧
      ∀ d ∈ (⟨[0, 2, 3, 4], 9, 0, 10, 0⟩ : CleaningSchedule).days, d < 7) := by
  have h : parse_sign_description
      (("SANITATION BROOM SYMBOL MONDAY TUESDAY WEDNESDAY THURSDAY FRIDAY EXCEPT TUESDAY 9AM-10AM").data) =
      some ⟨[0, 2, 3, 4], 9, 0, 10, 0⟩ := by decide
  exact ⟨h, parsed_days_sorted_claim _ _ h⟩

end NYCParking
